import Mathlib

/-
Verification development for the `ai_sql_converter` repository
(src/sql_converter.py and src/sql_extractor.py).

Texts are modelled as lists of characters (`Str`), and the Python string
operations used by the source (`str.split`, `str.strip`, `str.lower`,
`str.startswith`, `str.replace`, `'\n'.join`, whitespace `str.split()`)
are given faithful executable counterparts below.  All recursions are
structural (fuel-based where needed) so that every definition evaluates
by kernel reduction on concrete inputs.
-/

/-- Texts are lists of characters; `"...".data` injects a literal. -/
abbrev Str := List Char

/-- Python `str.strip()` whitespace set (ASCII part, which is all the
source's inputs use): space, tab, newline, carriage return, vertical
tab, form feed. -/
def isPySpace (c : Char) : Bool :=
  c = ' ' || c = '\t' || c = '\n' || c = '\r' || c = '\x0b' || c = '\x0c'

/-- Python `str.strip()`: drop whitespace from both ends. -/
def pyStrip (s : Str) : Str :=
  ((s.dropWhile isPySpace).reverse.dropWhile isPySpace).reverse

/-- ASCII lowering of one character, as Python `str.lower()` acts on the
ASCII range (the only range the source's markers use). -/
def pyLowerChar (c : Char) : Char :=
  if 65 ≤ c.toNat && c.toNat ≤ 90 then Char.ofNat (c.toNat + 32) else c

/-- Python `str.lower()`. -/
def pyLower (s : Str) : Str := s.map pyLowerChar

/-- Boolean prefix test, as in Python `str.startswith` and the prefix
comparison done by `str.split(sep)`. -/
def leadsWith : Str → Str → Bool
  | [], _ => true
  | _ :: _, [] => false
  | p :: ps, c :: cs => p = c && leadsWith ps cs

/-- Fuel-driven worker for `pySplit`; the fuel starts at `s.length`,
which is enough for every step (each step consumes at least one
character when the separator is non-empty). -/
def pySplitF (sep : Str) : Nat → Str → List Str
  | _, [] => [[]]
  | 0, s => [s]
  | fuel + 1, c :: rest =>
      if leadsWith sep (c :: rest) then
        [] :: pySplitF sep fuel (List.drop sep.length (c :: rest))
      else
        match pySplitF sep fuel rest with
        | [] => [[c]]
        | g :: gs => (c :: g) :: gs

/-- Python `s.split(sep)` for a non-empty separator `sep`: cut at the
leftmost non-overlapping occurrences of `sep`, keeping empty pieces. -/
def pySplit (sep s : Str) : List Str := pySplitF sep s.length s

/-- Does `pat` occur as a contiguous run inside `s`? (Python `pat in s`.) -/
def hasSub (pat : Str) : Str → Bool
  | [] => leadsWith pat []
  | c :: rest => leadsWith pat (c :: rest) || hasSub pat rest

/-- `SubSeg y x`: `y` occurs contiguously inside `x`. -/
def SubSeg (y x : Str) : Prop := ∃ l r, x = l ++ (y ++ r)

/-- Python `sep.join(pieces)` for string pieces. -/
def joinWith (sep : Str) : List Str → Str
  | [] => []
  | [p] => p
  | p :: ps => p ++ sep ++ joinWith sep ps

/-- Python `'\n'.join(lines)`. -/
def joinLines (lines : List Str) : Str := joinWith ['\n'] lines

/-- Worker for `pyWsSplit`, carrying the current (reversed) token. -/
def pyWsSplitAux : Str → Str → List Str
  | [], cur => if cur = [] then [] else [cur.reverse]
  | c :: rest, cur =>
      if isPySpace c then
        if cur = [] then pyWsSplitAux rest []
        else cur.reverse :: pyWsSplitAux rest []
      else pyWsSplitAux rest (c :: cur)

/-- Python `str.split()` with no argument: split on whitespace runs,
discarding empty tokens. -/
def pyWsSplit (s : Str) : List Str := pyWsSplitAux s []

/-- Python `s.replace(old, new)` for non-empty `old`. -/
def pyReplace (s old new : Str) : Str := joinWith new (pySplit old s)

/-
Basic facts about the string kit.
-/

namespace SQLConverter

/-- The batch-separator token: both chunkers split on the literal
substring `'go'` (`sql_content.split('go')`). -/
def goTok : Str := "go".data

/-- The secondary split marker `'create proc'`. -/
def cpTok : Str := "create proc".data

/-- The tertiary split marker `'begin'`. -/
def bgTok : Str := "begin".data

/-- The `statements` list of `split_sql_content` /
`_split_sql_into_chunks`:
`[stmt.strip() for stmt in sql_content.split('go') if stmt.strip()]`. -/
def goStatements (sql : Str) : List Str :=
  ((pySplit goTok sql).map pyStrip).filter (fun st => decide (st ≠ []))

/-- The chunks appended for a single `stmt` by the body of
`for stmt in statements` (sql_converter.py lines 89-109 = 403-423):
the nested loops with `chunks.append(...)` are rendered as a flatten of
per-piece lists, which preserves emission order. -/
def convChunksOfStmt (maxc : Nat) (stmt : Str) : List Str :=
  if stmt.length > maxc then
    ((pySplit cpTok stmt).map (fun proc =>
      if pyStrip proc = [] then []
      else if proc.length > maxc then
        ((pySplit bgTok proc).map (fun block =>
          if pyStrip block = [] then []
          else [if block = proc then cpTok ++ block else bgTok ++ block])).flatten
      else [cpTok ++ proc])).flatten
  else [stmt]

/-- `split_sql_content(sql_content, max_chunk_size)`
(sql_converter.py lines 391-425). -/
def split_sql_content (sql : Str) (maxc : Nat) : List Str :=
  ((goStatements sql).map (convChunksOfStmt maxc)).flatten

/-- `SQLConverter._split_sql_into_chunks` (sql_converter.py lines
79-111) has a body identical, line for line, to `split_sql_content`. -/
def split_sql_into_chunks (sql : Str) (maxc : Nat) : List Str :=
  split_sql_content sql maxc

/-- Outcome of the model call inside `_convert_sql_chunk`: any raised
exception (API failure, invalid db type, ...) reaches the
`except Exception` handler; otherwise the response content is a text. -/
inductive ChunkCallOutcome where
  | failure
  | ok (content : Str)
deriving DecidableEq

/-- `_convert_sql_chunk` (sql_converter.py lines 43-77): on any
exception, print and return `None`; on success, strip the content,
delete code fences, strip again. -/
def convert_sql_chunk : ChunkCallOutcome → Option Str
  | .failure => none
  | .ok content =>
      some (pyStrip (pyReplace (pyReplace (pyStrip content) "```sql".data []) "```".data []))

/-- The joining separator `"\n\nGO\n\n"` of `_convert_sql_parallel`. -/
def gatherSep : Str := "\n\nGO\n\n".data

/-- Python truthiness filter `[r for r in results if r]` on
`Optional[str]` values: drops `None` and empty strings. -/
def pyTruthy : Option Str → Option Str
  | none => none
  | some [] => none
  | some s => some s

/-- The assembler of `_convert_sql_parallel` (sql_converter.py lines
130-132): `converted = [r for r in results if r]`;
`return "\n\nGO\n\n".join(converted) if converted else None`. -/
def joinConverted (results : List (Option Str)) : Option Str :=
  let converted := results.filterMap pyTruthy
  if converted = [] then none else some (joinWith gatherSep converted)

/-- `_convert_sql_parallel` after chunking: each chunk's conversion
outcome is mapped through `_convert_sql_chunk` and the results are
assembled. -/
def convert_sql_parallel (outcomes : List ChunkCallOutcome) : Option Str :=
  joinConverted (outcomes.map convert_sql_chunk)

/-- None of the three split markers (batch separator, procedure keyword,
block keyword) occurs inside `s`. -/
def noMarkers (s : Str) : Prop :=
  hasSub goTok s = false ∧ hasSub cpTok s = false ∧ hasSub bgTok s = false

instance (s : Str) : Decidable (noMarkers s) := by
  unfold noMarkers
  infer_instance

/-- Escape-valve shape of an emitted unit: within budget, or an
oversized re-prefixed procedure piece whose own content fits the budget,
or a re-prefixed piece whose content has no further split markers. -/
def unitEscape (maxc : Nat) (c : Str) : Prop :=
  c.length ≤ maxc
  ∨ (leadsWith cpTok c = true ∧ (List.drop cpTok.length c).length ≤ maxc)
  ∨ (leadsWith cpTok c = true ∧ noMarkers (List.drop cpTok.length c))
  ∨ (leadsWith bgTok c = true ∧ noMarkers (List.drop bgTok.length c))

end SQLConverter

namespace SQLExtractor

inductive ChunkType where
  | header
  | body
  | full
deriving DecidableEq

/-- A chunk dict built by `SQLExtractor._split_sql_into_chunks`.  The
Python `content` field holds `'\n'.join(lines)`; here the line list is
kept and joined (via `joinLines`) wherever the Python value is used, a
lossless rendering of the same data.  `chunk_index`/`total_chunks` are
present only on multi-part body chunks, hence `Option`. -/
structure Chunk where
  type : ChunkType
  content : List Str
  proc_name : Str
  chunk_index : Option Nat
  total_chunks : Option Nat
deriving DecidableEq

/-- `_estimate_tokens` (sql_extractor.py line 67): `len(text) // 3`. -/
def estimate_tokens (text : Str) : Nat := text.length / 3

/-- `self.max_input_tokens = 6000` (line 52). -/
def max_input_tokens : Nat := 6000

/-- Body-start marker test (line 129):
`proc_line.strip().lower().startswith('as')` or `...startswith('begin')`. -/
def bodyStart (line : Str) : Bool :=
  leadsWith "as".data (pyLower (pyStrip line))
    || leadsWith "begin".data (pyLower (pyStrip line))

/-- The header/body partition loop (lines 124-134): the `in_body` flag
latches on the first body-start line; lines before it go to the header,
from it onward to the body. -/
def headerBodySplit (inBody : Bool) : List Str → List Str × List Str
  | [] => ([], [])
  | l :: ls =>
      let inBody2 := inBody || bodyStart l
      let hb := headerBodySplit inBody2 ls
      if inBody2 then (hb.1, l :: hb.2) else (l :: hb.1, hb.2)

/-- The body-chunk packing loop (lines 140-154): greedily accumulate
lines, flushing the current run when adding the next line would cross
the token budget (and the run is non-empty); flush the remainder at the
end. -/
def packBody : List Str → List Str → Nat → List (List Str)
  | [], cur, _ => if cur = [] then [] else [cur]
  | l :: ls, cur, tok =>
      if tok + estimate_tokens l > max_input_tokens ∧ cur ≠ [] then
        cur :: packBody ls [l] (estimate_tokens l)
      else packBody ls (cur ++ [l]) (tok + estimate_tokens l)

/-- Closing a procedure scope (lines 117-188): build the chunk(s) for
the accumulated lines `cc` under the owner name `name` - one `full`
chunk when within budget, else a `header` chunk plus one unindexed
`body` chunk, or an indexed run of `body` chunks when the body itself
is over budget. -/
def closeChunks (cc : List Str) (name : Str) : List Chunk :=
  if estimate_tokens (joinLines cc) > max_input_tokens then
    let hb := headerBodySplit false cc
    if estimate_tokens (joinLines hb.2) > max_input_tokens then
      let bodyChunks := packBody hb.2 [] 0
      ⟨.header, hb.1, name, none, none⟩ ::
        bodyChunks.enum.map (fun p => ⟨.body, p.2, name, some p.1, some bodyChunks.length⟩)
    else
      [⟨.header, hb.1, name, none, none⟩, ⟨.body, hb.2, name, none, none⟩]
  else [⟨.full, cc, name, none, none⟩]

/-- Scope-opening test (line 100):
`line_lower.startswith('create proc') or line_lower.startswith('create procedure')`
where `line_lower = line.strip().lower()`. -/
def opensProc (line : Str) : Bool :=
  leadsWith "create proc".data (pyLower (pyStrip line))
    || leadsWith "create procedure".data (pyLower (pyStrip line))

/-- The owner name recorded on an opening line (line 110):
`line.split()[-1].strip()` - the last whitespace-delimited token of the
raw line.  (`split()` is never empty on an opening line, so the `[-1]`
indexing is total; `getLastD` renders it.) -/
def ownerName (line : Str) : Str := pyStrip ((pyWsSplit line).getLastD [])

/-- Loop state of `_split_sql_into_chunks`. -/
structure EState where
  chunks : List Chunk
  current_chunk : List Str
  in_procedure : Bool
  current_proc_name : Str

/-- One iteration of `for line in sql_content.split('\n')`
(lines 96-191). -/
def extractStep (s : EState) (line : Str) : EState :=
  let s1 :=
    if opensProc line then
      let s0 :=
        if s.in_procedure ∧ s.current_chunk ≠ [] then
          { s with
              chunks := s.chunks
                ++ [⟨.full, s.current_chunk, s.current_proc_name, none, none⟩],
              current_chunk := [] }
        else s
      { s0 with in_procedure := true, current_proc_name := ownerName line }
    else s
  if s1.in_procedure then
    let s2 := { s1 with current_chunk := s1.current_chunk ++ [line] }
    if pyLower (pyStrip line) = "go".data then
      { s2 with
          chunks := s2.chunks ++ closeChunks s2.current_chunk s2.current_proc_name,
          current_chunk := [], in_procedure := false, current_proc_name := [] }
    else s2
  else s1

/-- End of the line loop (lines 193-201): flush any trailing
accumulated lines as a `full` chunk, then drop chunks whose content is
empty after trimming. -/
def finishChunks (fin : EState) : List Chunk :=
  (if fin.current_chunk ≠ [] then
      fin.chunks ++ [⟨.full, fin.current_chunk, fin.current_proc_name, none, none⟩]
    else fin.chunks).filter
    (fun c => decide (pyStrip (joinLines c.content) ≠ []))

/-- `SQLExtractor._split_sql_into_chunks` (sql_extractor.py lines
69-201): fold the per-line step over the lines, then finish. -/
def split_sql_into_chunks (sql : Str) : List Chunk :=
  if sql = [] then []
  else finishChunks ((pySplit ['\n'] sql).foldl extractStep ⟨[], [], false, []⟩)

/-- The open-scope line scan, as the chunker's contract describes it: a
procedure-marker line opens a scope, lines are collected while a scope
is open, and a standalone separator line closes the scope after being
collected.  Lines outside any scope are dropped. -/
def scopeStep (st : Bool × List Str) (line : Str) : Bool × List Str :=
  let opened := st.1 || opensProc line
  let kept := if opened then st.2 ++ [line] else st.2
  (if opened && (pyLower (pyStrip line) = "go".data : Bool)
    then false else opened, kept)

/-- All lines of `sql` lying inside an open procedure scope. -/
def inScopeLines (sql : Str) : List Str :=
  ((pySplit ['\n'] sql).foldl scopeStep (false, [])).2

/-- The structured record parsed from the model's tool call
(`class SQLExtraction(BaseModel)`, sql_extractor.py lines 12-18). -/
structure SQLExtraction where
  proc_name : Str
  description : Str
  in_params : List Str
  out_params : List Str
  inout_params : List Str
  related_tables : List Str
deriving DecidableEq

/-- Outcome of one attempted model call inside `extract_from_chunk`, as
seen by its handlers: a timeout of the awaited call, one of the openai
exception classes, a malformed response (no choices / no tool calls /
unparsable arguments), an explicit refusal, or a parsed record. -/
inductive ApiOutcome where
  | timeout
  | rateLimit
  | apiError
  | badRequest (isCtxLen : Bool)
  | emptyChoices
  | noToolCalls (refusal : Bool)
  | badJson
  | ok (e : SQLExtraction)
deriving DecidableEq

/-- Error classes with which `extract_from_chunk` finally raises.  Note
on the `openai` (v1) exception hierarchy: `BadRequestError` is a
subclass of `APIError`, so the `except openai.APIError` clause at line
323 catches bad requests - including context-length failures - before
the dedicated `except openai.BadRequestError` clause at line 330 is
considered; that clause is unreachable.  `ValueError`s raised inside
the `try` body (empty choices, no tool calls, refusal) and JSON
validation errors reach the generic `except Exception` clause, as does
the `TimeoutError` raised on a final timeout. -/
inductive ExtractError where
  | failedAfterRetries
  | rateLimitAfterRetries
  | apiErrorAfterRetries
  | loopExhausted
deriving DecidableEq

/-- The error raised when the last allowed attempt fails with the given
outcome (each handler's `raise` once its retry guard fails). -/
def terminalError : ApiOutcome → ExtractError
  | .rateLimit => .rateLimitAfterRetries
  | .apiError => .apiErrorAfterRetries
  | .badRequest _ => .apiErrorAfterRetries
  | _ => .failedAfterRetries

/-- The body-merge block of `extract_from_chunk` (lines 292-313) for a
successful parse `e` of a `body` chunk: copy the parameters from the
first partial record with the chunk's `proc_name`; on an indexed later
part, append the description and union the tables into that record and
return `None` ("skip intermediate chunks"); on the first indexed part,
overwrite its description/tables.  `list(set(a + b))` is rendered as
`(a ++ b).dedup` - same members; CPython's set iteration order is
unspecified and no claim depends on it. -/
def applyBodyMerge (chunk : Chunk) (e : SQLExtraction) (partials : List SQLExtraction) :
    Option SQLExtraction × List SQLExtraction :=
  match List.findIdx? (fun p => decide (p.proc_name = chunk.proc_name)) partials with
  | none => (some e, partials)
  | some i =>
      let prev := partials.getD i e
      let e2 : SQLExtraction :=
        { e with
            in_params := prev.in_params
            out_params := prev.out_params
            inout_params := prev.inout_params }
      match chunk.chunk_index with
      | some k =>
          if k > 0 then
            let prev2 : SQLExtraction :=
              { prev with
                  description := prev.description ++ ['\n'] ++ e2.description
                  related_tables := (prev.related_tables ++ e2.related_tables).dedup }
            (none, partials.set i prev2)
          else
            let prev2 : SQLExtraction :=
              { prev with
                  description := e2.description
                  related_tables := e2.related_tables }
            (some e2, partials.set i prev2)
      | none => (some e2, partials)

/-- The attempt loop of `extract_from_chunk` (lines 225-342), driven by
an oracle giving each attempt's outcome.  `rem` counts the further
attempts the `range(max_retries)` loop still holds beyond the current
one, so `rem > 0` is exactly the guard `attempt < max_retries - 1`
of every retry handler.  Returns the result (`.ok none` is the
"skip intermediate chunk" marker), the updated `partial_results`, and
the number of attempts consumed. -/
def extractAttempts (chunk : Chunk) (oracle : Nat → ApiOutcome)
    (partials : List SQLExtraction) :
    Nat → Nat → Except ExtractError (Option SQLExtraction) × List SQLExtraction × Nat
  | a, 0 => (.error .loopExhausted, partials, a)
  | a, rem + 1 =>
      match oracle a with
      | .ok e =>
          if chunk.type = .body then
            let m := applyBodyMerge chunk e partials
            (.ok m.1, m.2, a + 1)
          else (.ok (some e), partials, a + 1)
      | o =>
          if rem > 0 then extractAttempts chunk oracle partials (a + 1) rem
          else (.error (terminalError o), partials, a + 1)

/-- `extract_from_chunk(chunk)` with `max_retries = 3` (line 222). -/
def extract_from_chunk (chunk : Chunk) (oracle : Nat → ApiOutcome)
    (partials : List SQLExtraction) :
    Except ExtractError (Option SQLExtraction) × List SQLExtraction × Nat :=
  extractAttempts chunk oracle partials 0 3

/-- The per-file loop of `process_sql_file` (lines 373-388), driven by a
per-chunk oracle (`oracle i` gives chunk `i`'s attempt outcomes).
Returns `(final_results, partial_results)`.  An error raised by
`extract_from_chunk` escapes the loop to the file-level
`except Exception` (line 390), which returns `[]` - likewise a
`KeyError` on a body chunk carrying `chunk_index` without
`total_chunks` (such a chunk is never built by the chunker). -/
def processChunksAux (oracle : Nat → Nat → ApiOutcome) :
    List Chunk → Nat → List SQLExtraction → List SQLExtraction →
      List SQLExtraction × List SQLExtraction
  | [], _, partials, finals => (finals, partials)
  | c :: cs, i, partials, finals =>
      match extract_from_chunk c (oracle i) partials with
      | (.error _, partials2, _) => ([], partials2)
      | (.ok res, partials2, _) =>
          match res with
          | none => processChunksAux oracle cs (i + 1) partials2 finals
          | some r =>
              match c.type with
              | .header => processChunksAux oracle cs (i + 1) (partials2 ++ [r]) finals
              | .full => processChunksAux oracle cs (i + 1) partials2 (finals ++ [r])
              | .body =>
                  match c.chunk_index, c.total_chunks with
                  | none, _ => processChunksAux oracle cs (i + 1) partials2 (finals ++ [r])
                  | some k, some t =>
                      if (k : Int) = (t : Int) - 1 then
                        processChunksAux oracle cs (i + 1) partials2 (finals ++ [r])
                      else processChunksAux oracle cs (i + 1) partials2 finals
                  | some _, none => ([], partials2)

/-- `process_sql_file` (lines 344-392): the list the caller receives. -/
def process_sql_file (chunks : List Chunk) (oracle : Nat → Nat → ApiOutcome) :
    List SQLExtraction :=
  (processChunksAux oracle chunks 0 [] []).1

/-- The owner names announced by scope-opening lines of a line list. -/
def openNamesOf (L : List Str) : List Str :=
  L.filterMap (fun l => if opensProc l then some (ownerName l) else none)

/-- The owner names announced by the scope-opening lines of `sql`. -/
def openNames (sql : Str) : List Str := openNamesOf (pySplit ['\n'] sql)

/-- Loop invariant for the owner-name bookkeeping: while a scope is
open the current name was read off some opening line, an empty scope
flag means an empty accumulator, and every finished chunk's name was
read off some opening line. -/
def nameInv (L : List Str) (s : EState) : Prop :=
  (s.in_procedure = true → s.current_proc_name ∈ openNamesOf L)
  ∧ (s.in_procedure = false → s.current_chunk = [])
  ∧ ∀ c ∈ s.chunks, c.proc_name ∈ openNamesOf L

/-- Relation between the chunker's loop state and the scope scan: the
scope flags agree, the line accumulator holds only in-scope lines, and
every finished chunk's content holds only in-scope lines (in order). -/
def scopeInv (s : EState) (t : Bool × List Str) : Prop :=
  s.in_procedure = t.1
  ∧ s.current_chunk.Sublist t.2
  ∧ ∀ c ∈ s.chunks, c.content.Sublist t.2

end SQLExtractor

/-- Defined from the spec's words, for comparison with the code's
splitter: grouping of lines between standalone, case-insensitive
batch-separator lines ("splits into candidate statements exactly at
occurrences of the batch-separator token that stand alone on a line,
matched case-insensitively"). -/
def splitLinesAtGo : List Str → List (List Str)
  | [] => [[]]
  | l :: ls =>
      if pyLower (pyStrip l) = "go".data then [] :: splitLinesAtGo ls
      else
        match splitLinesAtGo ls with
        | [] => [[l]]
        | g :: gs => (l :: g) :: gs

/-- Defined from the spec's words: the candidate statements under the
standalone-line, case-insensitive reading of the separator, trimmed,
empties discarded. -/
def specSplitStandalone (sql : Str) : List Str :=
  (((splitLinesAtGo (pySplit ['\n'] sql)).map joinLines).map pyStrip).filter
    (fun st => decide (st ≠ []))

/-- Defined from the claim's words, for comparison with the code's
assembler: join ALL successful results (empty strings included) with
the separator; `none` exactly when zero units succeeded. -/
def specJoinSuccesses (results : List (Option Str)) : Option Str :=
  if results.filterMap id = [] then none
  else some (joinWith SQLConverter.gatherSep (results.filterMap id))

/-
Concrete scenario data for the extraction-pipeline claims.
-/

/-- Header extraction for procedure `p` with `in_params = [a, b]`. -/
def hdrRecordAB : SQLExtractor.SQLExtraction :=
  ⟨"p".data, [], ["a".data, "b".data], [], [], []⟩

/-- First body part's extraction: description `"x"`. -/
def bodyRecordX : SQLExtractor.SQLExtraction :=
  ⟨"p".data, "x".data, [], [], [], []⟩

/-- Second body part's extraction: description `"y"`. -/
def bodyRecordY : SQLExtractor.SQLExtraction :=
  ⟨"p".data, "y".data, [], [], [], []⟩

/-- The record the accumulation rule produces for `p`:
parameters from the header, descriptions joined by a newline. -/
def mergedRecordXY : SQLExtractor.SQLExtraction :=
  ⟨"p".data, "x\ny".data, ["a".data, "b".data], [], [], []⟩

/-- A procedure chunked into one header unit and two body units. -/
def headerTwoBodyChunks : List SQLExtractor.Chunk :=
  [⟨.header, [], "p".data, none, none⟩,
   ⟨.body, [], "p".data, some 0, some 2⟩,
   ⟨.body, [], "p".data, some 1, some 2⟩]

/-- Oracle for the header-plus-two-body scenario: every unit's call
succeeds with the extraction above. -/
def headerTwoBodyOracle : Nat → Nat → SQLExtractor.ApiOutcome := fun i _ =>
  if i = 0 then .ok hdrRecordAB
  else if i = 1 then .ok bodyRecordX
  else .ok bodyRecordY

/-- Extraction records for three independent `full` units. -/
def recordA : SQLExtractor.SQLExtraction := ⟨"A".data, [], [], [], [], []⟩

def recordC : SQLExtractor.SQLExtraction := ⟨"C".data, [], [], [], [], []⟩

def fullChunkA : SQLExtractor.Chunk := ⟨.full, [], "A".data, none, none⟩

def fullChunkB : SQLExtractor.Chunk := ⟨.full, [], "B".data, none, none⟩

def fullChunkC : SQLExtractor.Chunk := ⟨.full, [], "C".data, none, none⟩

/-- Oracle under which unit 0 succeeds, unit 1 fails every attempt with
a provider error, and unit 2 would succeed. -/
def failingMiddleOracle : Nat → Nat → SQLExtractor.ApiOutcome := fun i _ =>
  if i = 0 then .ok recordA
  else if i = 1 then .apiError
  else .ok recordC

/-- Oracle under which both units succeed immediately. -/
def allOkOracle : Nat → Nat → SQLExtractor.ApiOutcome := fun i _ =>
  if i = 0 then .ok recordA else .ok recordC

/-- A single `full` unit for the retry-governor scenarios. -/
def fullChunkD : SQLExtractor.Chunk := ⟨.full, [], "D".data, none, none⟩

def recordD : SQLExtractor.SQLExtraction := ⟨"D".data, [], [], [], [], []⟩

/-- First attempt: the model refuses (no tool calls, content contains
"I apologize"); second attempt: success. -/
def refusalThenOkOracle : Nat → SQLExtractor.ApiOutcome := fun a =>
  if a = 0 then .noToolCalls true else .ok recordD

/-- First attempt: empty `choices` in the response; second: success. -/
def emptyThenOkOracle : Nat → SQLExtractor.ApiOutcome := fun a =>
  if a = 0 then .emptyChoices else .ok recordD

/-- Every attempt fails with a context-length BadRequestError. -/
def ctxLenOracle : Nat → SQLExtractor.ApiOutcome := fun _ => .badRequest true

/-- The single unit emitted for the input
`"create procedure foo @x int\ngo"`. -/
def fooProcChunk : SQLExtractor.Chunk :=
  ⟨.full, ["create procedure foo @x int".data, "go".data], "int".data, none, none⟩

/-- The single unit emitted for the input
`"junk\ncreate proc p\nbody\ngo\ntail"`. -/
def scopedFullChunk : SQLExtractor.Chunk :=
  ⟨.full, ["create proc p".data, "body".data, "go".data], "p".data, none, none⟩

theorem leadsWith_iff (p s : Str) : leadsWith p s = true ↔ ∃ r, s = p ++ r := by
  induction p generalizing s with
  | nil => simp [leadsWith]
  | cons a ps ih =>
      cases s with
      | nil => simp [leadsWith]
      | cons c cs =>
          simp only [leadsWith, Bool.and_eq_true, decide_eq_true_eq, ih, List.cons_append,
            List.cons.injEq]
          constructor
          · rintro ⟨rfl, r, rfl⟩; exact ⟨r, rfl, rfl⟩
          · rintro ⟨r, rfl, rfl⟩; exact ⟨rfl, r, rfl⟩

theorem leadsWith_self_append (p r : Str) : leadsWith p (p ++ r) = true :=
  (leadsWith_iff p (p ++ r)).2 ⟨r, rfl⟩

theorem leadsWith_extend {p s : Str} (h : leadsWith p s = true) (t : Str) :
    leadsWith p (s ++ t) = true := by
  rcases (leadsWith_iff p s).1 h with ⟨r, rfl⟩
  exact (leadsWith_iff p (p ++ r ++ t)).2 ⟨r ++ t, by simp⟩

theorem SubSeg.refl (s : Str) : SubSeg s s := ⟨[], [], by simp⟩

theorem SubSeg.trans {z y x : Str} (h1 : SubSeg z y) (h2 : SubSeg y x) : SubSeg z x := by
  rcases h1 with ⟨l1, r1, rfl⟩
  rcases h2 with ⟨l2, r2, rfl⟩
  exact ⟨l2 ++ l1, r1 ++ r2, by simp⟩

theorem hasSub_iff_subSeg (pat s : Str) : hasSub pat s = true ↔ SubSeg pat s := by
  induction s with
  | nil =>
      simp only [hasSub, leadsWith_iff, SubSeg]
      constructor
      · rintro ⟨r, h⟩; exact ⟨[], r, by simpa using h⟩
      · rintro ⟨l, r, h⟩
        cases l with
        | nil => exact ⟨r, by simpa using h⟩
        | cons a l => simp at h
  | cons c rest ih =>
      simp only [hasSub, Bool.or_eq_true, leadsWith_iff, ih]
      constructor
      · rintro (⟨r, h⟩ | ⟨l, r, h⟩)
        · exact ⟨[], r, by simpa using h⟩
        · exact ⟨c :: l, r, by simp [h]⟩
      · rintro ⟨l, r, h⟩
        cases l with
        | nil => exact Or.inl ⟨r, by simpa using h⟩
        | cons a l =>
            simp only [List.cons_append, List.cons.injEq] at h
            exact Or.inr ⟨l, r, h.2⟩

theorem hasSub_of_subSeg {pat y x : Str} (h : hasSub pat y = true) (hyx : SubSeg y x) :
    hasSub pat x = true :=
  (hasSub_iff_subSeg pat x).2 (((hasSub_iff_subSeg pat y).1 h).trans hyx)

/-- `pySplitF` always yields a non-empty list whose head piece is a
prefix of the input. -/
theorem pySplitF_head (sep : Str) :
    ∀ fuel s, ∃ g gs r, pySplitF sep fuel s = g :: gs ∧ s = g ++ r := by
  intro fuel
  induction fuel with
  | zero =>
      intro s
      cases s with
      | nil => exact ⟨[], [], [], rfl, rfl⟩
      | cons c rest => exact ⟨c :: rest, [], [], rfl, by simp⟩
  | succ fuel ih =>
      intro s
      cases s with
      | nil => exact ⟨[], [], [], rfl, rfl⟩
      | cons c rest =>
          by_cases hpre : leadsWith sep (c :: rest) = true
          · exact ⟨[], pySplitF sep fuel (List.drop sep.length (c :: rest)), c :: rest,
              by simp [pySplitF, hpre], rfl⟩
          · rcases ih rest with ⟨g, gs, r, hrec, hr⟩
            exact ⟨c :: g, gs, r, by simp [pySplitF, hpre, hrec], by simp [hr]⟩

/-- The pieces cut by `pySplitF` occur contiguously inside the input. -/
theorem pySplitF_subSeg (sep : Str) :
    ∀ fuel s, ∀ p ∈ pySplitF sep fuel s, SubSeg p s := by
  intro fuel
  induction fuel with
  | zero =>
      intro s p hp
      cases s with
      | nil => simp [pySplitF] at hp; simp [hp, SubSeg.refl]
      | cons c rest => simp [pySplitF] at hp; simp [hp, SubSeg.refl]
  | succ fuel ih =>
      intro s p hp
      cases s with
      | nil => simp [pySplitF] at hp; simp [hp, SubSeg.refl]
      | cons c rest =>
          simp only [pySplitF] at hp
          by_cases hpre : leadsWith sep (c :: rest) = true
          · rw [if_pos hpre] at hp
            rcases List.mem_cons.1 hp with rfl | hp
            · exact ⟨[], c :: rest, by simp⟩
            · have h1 := ih _ p hp
              have h2 : SubSeg (List.drop sep.length (c :: rest)) (c :: rest) :=
                ⟨List.take sep.length (c :: rest), [], by simp⟩
              exact h1.trans h2
          · rw [if_neg hpre] at hp
            rcases pySplitF_head sep fuel rest with ⟨g, gs, r, hrec, hr⟩
            rw [hrec] at hp
            rcases List.mem_cons.1 hp with rfl | hp
            · exact ⟨[], r, by simp [hr]⟩
            · have h1 := ih rest p (by rw [hrec]; exact List.mem_cons_of_mem g hp)
              exact h1.trans ⟨[c], [], by simp⟩

/-- No piece cut by `pySplitF` contains an occurrence of the separator
(for a non-empty separator, given enough fuel). -/
theorem pySplitF_no_sep {sep : Str} (hsep : sep ≠ []) :
    ∀ fuel s, s.length ≤ fuel → ∀ p ∈ pySplitF sep fuel s, hasSub sep p = false := by
  intro fuel
  induction fuel with
  | zero =>
      intro s hlen p hp
      cases s with
      | nil =>
          simp [pySplitF] at hp
          subst hp
          cases sep with
          | nil => exact absurd rfl hsep
          | cons a as => simp [hasSub, leadsWith]
      | cons c rest => simp at hlen
  | succ fuel ih =>
      intro s hlen p hp
      cases s with
      | nil =>
          simp [pySplitF] at hp
          subst hp
          cases sep with
          | nil => exact absurd rfl hsep
          | cons a as => simp [hasSub, leadsWith]
      | cons c rest =>
          simp only [pySplitF] at hp
          by_cases hpre : leadsWith sep (c :: rest) = true
          · rw [if_pos hpre] at hp
            rcases List.mem_cons.1 hp with rfl | hp
            · cases sep with
              | nil => exact absurd rfl hsep
              | cons a as => simp [hasSub, leadsWith]
            · refine ih _ ?_ p hp
              have h1 : 1 ≤ sep.length := by
                cases sep with
                | nil => exact absurd rfl hsep
                | cons a as => simp
              have h2 : rest.length + 1 ≤ fuel + 1 := by simpa using hlen
              simp only [List.length_drop, List.length_cons]
              omega
          · rw [if_neg hpre] at hp
            rcases pySplitF_head sep fuel rest with ⟨g, gs, r, hrec, hr⟩
            rw [hrec] at hp
            have hrest : rest.length ≤ fuel := by simpa using hlen
            rcases List.mem_cons.1 hp with rfl | hp
            · have hg : hasSub sep g = false :=
                ih rest hrest g (by rw [hrec]; exact List.mem_cons_self g gs)
              have hcg : leadsWith sep (c :: g) = false := by
                by_contra hcontra
                have hcg2 : leadsWith sep (c :: g) = true := by
                  cases h : leadsWith sep (c :: g) with
                  | false => exact absurd h hcontra
                  | true => rfl
                have : leadsWith sep ((c :: g) ++ r) = true := leadsWith_extend hcg2 r
                rw [show (c :: g) ++ r = c :: rest by simp [hr]] at this
                exact hpre this
              simp [hasSub, hcg, hg]
            · exact ih rest hrest p (by rw [hrec]; exact List.mem_cons_of_mem g hp)

/-- No piece cut by `pySplit` contains an occurrence of the (non-empty)
separator. -/
theorem pySplit_no_sep {sep : Str} (hsep : sep ≠ []) {s p : Str}
    (hp : p ∈ pySplit sep s) : hasSub sep p = false :=
  pySplitF_no_sep hsep s.length s (Nat.le_refl _) p hp

/-- The pieces cut by `pySplit` occur contiguously inside the input. -/
theorem pySplit_subSeg {sep s p : Str} (hp : p ∈ pySplit sep s) : SubSeg p s :=
  pySplitF_subSeg sep s.length s p hp

/-- The stripped text occurs contiguously inside the original. -/
theorem pyStrip_subSeg (s : Str) : SubSeg (pyStrip s) s := by
  have h1 : s.takeWhile isPySpace ++ s.dropWhile isPySpace = s :=
    List.takeWhile_append_dropWhile isPySpace s
  have h2 : (s.dropWhile isPySpace).reverse.takeWhile isPySpace
      ++ (s.dropWhile isPySpace).reverse.dropWhile isPySpace
      = (s.dropWhile isPySpace).reverse :=
    List.takeWhile_append_dropWhile isPySpace (s.dropWhile isPySpace).reverse
  have h3 : s.dropWhile isPySpace
      = ((s.dropWhile isPySpace).reverse.dropWhile isPySpace).reverse
        ++ ((s.dropWhile isPySpace).reverse.takeWhile isPySpace).reverse := by
    have h4 := congrArg List.reverse h2
    rw [List.reverse_append, List.reverse_reverse] at h4
    exact h4.symm
  refine ⟨s.takeWhile isPySpace,
    ((s.dropWhile isPySpace).reverse.takeWhile isPySpace).reverse, ?_⟩
  have h5 : pyStrip s
      = ((s.dropWhile isPySpace).reverse.dropWhile isPySpace).reverse := rfl
  rw [h5, ← h3, h1]

namespace SQLConverter

theorem convChunksOfStmt_small {maxc : Nat} {stmt : Str} (h : stmt.length ≤ maxc) :
    convChunksOfStmt maxc stmt = [stmt] := by
  simp [convChunksOfStmt, Nat.not_lt.2 h]

theorem flatten_map_of_singleton {α : Type} (f : α → List α) :
    ∀ l : List α, (∀ x ∈ l, f x = [x]) → (l.map f).flatten = l := by
  intro l h
  induction l with
  | nil => simp
  | cons a t ih => simp [h a (by simp), ih (fun x hx => h x (by simp [hx]))]

/-- When every trimmed separator-split segment fits the budget, the
chunker emits exactly those segments. -/
theorem split_sql_content_small {sql : Str} {maxc : Nat}
    (h : ∀ st ∈ goStatements sql, st.length ≤ maxc) :
    split_sql_content sql maxc = goStatements sql := by
  unfold split_sql_content
  exact flatten_map_of_singleton _ _ (fun st hst => convChunksOfStmt_small (h st hst))

end SQLConverter

theorem hasSub_false_of_subSeg {pat x y : Str} (hx : hasSub pat x = false)
    (hyx : SubSeg y x) : hasSub pat y = false := by
  cases h : hasSub pat y with
  | false => rfl
  | true => exact absurd (hasSub_of_subSeg h hyx) (by simp [hx])

namespace SQLConverter

theorem pyTruthy_eq_none_iff (r : Option Str) :
    pyTruthy r = none ↔ r = none ∨ r = some [] := by
  cases r with
  | none => simp [pyTruthy]
  | some s =>
      cases s with
      | nil => simp [pyTruthy]
      | cons a t => simp [pyTruthy]

theorem filterMap_pyTruthy (results : List (Option Str)) :
    results.filterMap pyTruthy
      = (results.filterMap id).filter (fun s => decide (s ≠ [])) := by
  induction results with
  | nil => rfl
  | cons r rs ih =>
      cases r with
      | none => simpa [List.filterMap_cons, pyTruthy] using ih
      | some s =>
          cases s with
          | nil => simpa [List.filterMap_cons, pyTruthy] using ih
          | cons a t => simp [List.filterMap_cons, pyTruthy, ih]

theorem joinConverted_eq_none_iff (results : List (Option Str)) :
    joinConverted results = none ↔ ∀ r ∈ results, r = none ∨ r = some [] := by
  have hiff : (results.filterMap pyTruthy = [])
      ↔ ∀ r ∈ results, r = none ∨ r = some [] := by
    rw [List.filterMap_eq_nil_iff]
    exact forall₂_congr (fun r hr => pyTruthy_eq_none_iff r)
  rw [show joinConverted results = (if results.filterMap pyTruthy = [] then none
      else some (joinWith gatherSep (results.filterMap pyTruthy))) from rfl]
  by_cases h : results.filterMap pyTruthy = []
  · rw [if_pos h]
    exact ⟨fun _ => hiff.1 h, fun _ => rfl⟩
  · simp only [if_neg h]
    constructor
    · intro hc; exact absurd hc (by simp)
    · intro hall; exact absurd (hiff.2 hall) h

theorem goStatements_mem {sql st : Str} (h : st ∈ goStatements sql) :
    ∃ seg ∈ pySplit goTok sql, st = pyStrip seg ∧ st ≠ [] := by
  unfold goStatements at h
  rcases List.mem_filter.1 h with ⟨h1, h2⟩
  rcases List.mem_map.1 h1 with ⟨seg, hseg, rfl⟩
  exact ⟨seg, hseg, rfl, of_decide_eq_true h2⟩

theorem goStatements_no_go {sql st : Str} (h : st ∈ goStatements sql) :
    hasSub goTok st = false := by
  rcases goStatements_mem h with ⟨seg, hseg, rfl, h2⟩
  exact hasSub_false_of_subSeg (pySplit_no_sep (by decide) hseg) (pyStrip_subSeg seg)

end SQLConverter

theorem drop_len_append (a b : Str) : List.drop a.length (a ++ b) = b := by
  induction a with
  | nil => simp
  | cons c t ih => simp [ih]

namespace SQLConverter

theorem split_sql_content_mem {sql : Str} {maxc : Nat} {c : Str}
    (h : c ∈ split_sql_content sql maxc) :
    ∃ stmt ∈ goStatements sql, c ∈ convChunksOfStmt maxc stmt := by
  unfold split_sql_content at h
  rcases List.mem_flatten.1 h with ⟨l, hl, hc⟩
  rcases List.mem_map.1 hl with ⟨stmt, hstmt, rfl⟩
  exact ⟨stmt, hstmt, hc⟩

theorem chunk_escape {sql : Str} {maxc : Nat} {c : Str}
    (h : c ∈ split_sql_content sql maxc) : unitEscape maxc c := by
  rcases split_sql_content_mem h with ⟨stmt, hstmt, hc⟩
  have hGoStmt : hasSub goTok stmt = false := goStatements_no_go hstmt
  unfold convChunksOfStmt at hc
  by_cases hbig : stmt.length > maxc
  · rw [if_pos hbig] at hc
    rcases List.mem_flatten.1 hc with ⟨l, hl, hcl⟩
    rcases List.mem_map.1 hl with ⟨proc, hproc, rfl⟩
    have hProcSub : SubSeg proc stmt := pySplit_subSeg hproc
    have hCpProc : hasSub cpTok proc = false := pySplit_no_sep (by decide) hproc
    have hGoProc : hasSub goTok proc = false := hasSub_false_of_subSeg hGoStmt hProcSub
    by_cases hstripp : pyStrip proc = []
    · rw [if_pos hstripp] at hcl; simp at hcl
    · rw [if_neg hstripp] at hcl
      by_cases hpbig : proc.length > maxc
      · rw [if_pos hpbig] at hcl
        rcases List.mem_flatten.1 hcl with ⟨bl, hbl, hcb⟩
        rcases List.mem_map.1 hbl with ⟨block, hblock, rfl⟩
        have hBlockSub : SubSeg block proc := pySplit_subSeg hblock
        have hBgBlock : hasSub bgTok block = false := pySplit_no_sep (by decide) hblock
        have hCpBlock : hasSub cpTok block = false := hasSub_false_of_subSeg hCpProc hBlockSub
        have hGoBlock : hasSub goTok block = false := hasSub_false_of_subSeg hGoProc hBlockSub
        by_cases hstripb : pyStrip block = []
        · rw [if_pos hstripb] at hcb; simp at hcb
        · rw [if_neg hstripb] at hcb
          rcases List.mem_singleton.1 hcb with rfl
          by_cases heq : block = proc
          · rw [if_pos heq]
            refine Or.inr (Or.inr (Or.inl ⟨leadsWith_self_append _ _, ?_⟩))
            rw [drop_len_append]
            exact ⟨hGoBlock, hCpBlock, hBgBlock⟩
          · rw [if_neg heq]
            refine Or.inr (Or.inr (Or.inr ⟨leadsWith_self_append _ _, ?_⟩))
            rw [drop_len_append]
            exact ⟨hGoBlock, hCpBlock, hBgBlock⟩
      · rw [if_neg hpbig] at hcl
        rcases List.mem_singleton.1 hcl with rfl
        refine Or.inr (Or.inl ⟨leadsWith_self_append _ _, ?_⟩)
        rw [drop_len_append]
        exact Nat.not_lt.1 hpbig
  · rw [if_neg hbig] at hc
    rcases List.mem_singleton.1 hc with rfl
    exact Or.inl (Nat.not_lt.1 hbig)

end SQLConverter

namespace SQLExtractor

theorem opensProc_ne_go {line : Str} (h : opensProc line = true) :
    pyLower (pyStrip line) ≠ "go".data := by
  intro hgo
  unfold opensProc at h
  rw [hgo] at h
  exact absurd h (by decide)

/-
Characterization of `extractStep` in each of its five disjoint cases.
-/

theorem extractStep_skip {s : EState} {line : Str}
    (h1 : opensProc line = false) (h2 : s.in_procedure = false) :
    extractStep s line = s := by
  simp [extractStep, h1, h2]

theorem extractStep_collect {s : EState} {line : Str}
    (h1 : opensProc line = false) (h2 : s.in_procedure = true)
    (h3 : pyLower (pyStrip line) ≠ "go".data) :
    extractStep s line = { s with current_chunk := s.current_chunk ++ [line] } := by
  simp [extractStep, h1, h2, h3]

theorem extractStep_close {s : EState} {line : Str}
    (h1 : opensProc line = false) (h2 : s.in_procedure = true)
    (h3 : pyLower (pyStrip line) = "go".data) :
    extractStep s line =
      { chunks := s.chunks ++ closeChunks (s.current_chunk ++ [line]) s.current_proc_name,
        current_chunk := [], in_procedure := false, current_proc_name := [] } := by
  simp [extractStep, h1, h2, h3]

theorem extractStep_open_flush {s : EState} {line : Str}
    (h1 : opensProc line = true) (h2 : s.in_procedure = true)
    (h3 : s.current_chunk ≠ []) :
    extractStep s line =
      { chunks := s.chunks ++ [⟨.full, s.current_chunk, s.current_proc_name, none, none⟩],
        current_chunk := [line], in_procedure := true,
        current_proc_name := ownerName line } := by
  simp [extractStep, h1, h2, h3, opensProc_ne_go h1]

theorem extractStep_open_clean {s : EState} {line : Str}
    (h1 : opensProc line = true) (h2 : ¬(s.in_procedure = true ∧ s.current_chunk ≠ [])) :
    extractStep s line =
      { chunks := s.chunks, current_chunk := s.current_chunk ++ [line],
        in_procedure := true, current_proc_name := ownerName line } := by
  simp [extractStep, h1, h2, opensProc_ne_go h1]

theorem headerBodySplit_true : ∀ ls : List Str, headerBodySplit true ls = ([], ls) := by
  intro ls
  induction ls with
  | nil => rfl
  | cons l t ih => simp [headerBodySplit, ih]

theorem headerBodySplit_append : ∀ (inB : Bool) (ls : List Str),
    (headerBodySplit inB ls).1 ++ (headerBodySplit inB ls).2 = ls := by
  intro inB ls
  induction ls generalizing inB with
  | nil => rfl
  | cons l t ih =>
      by_cases hb : (inB || bodyStart l) = true
      · simp [headerBodySplit, hb, headerBodySplit_true]
      · simp only [headerBodySplit, hb]
        simp only [Bool.not_eq_true] at hb
        simp [hb, ih false]

theorem packBody_flatten : ∀ (ls cur : List Str) (tok : Nat),
    (packBody ls cur tok).flatten = cur ++ ls := by
  intro ls
  induction ls with
  | nil =>
      intro cur tok
      by_cases h : cur = [] <;> simp [packBody, h]
  | cons l t ih =>
      intro cur tok
      by_cases h : (tok + estimate_tokens l > max_input_tokens ∧ cur ≠ [])
      · simp [packBody, h, ih]
      · simp [packBody, h, ih]

theorem closeChunks_name {cc : List Str} {name : Str} {c : Chunk}
    (h : c ∈ closeChunks cc name) : c.proc_name = name := by
  unfold closeChunks at h
  by_cases h1 : estimate_tokens (joinLines cc) > max_input_tokens
  · rw [if_pos h1] at h
    by_cases h2 : estimate_tokens (joinLines (headerBodySplit false cc).2) > max_input_tokens
    · simp only [if_pos h2] at h
      rcases List.mem_cons.1 h with rfl | h
      · rfl
      · rcases List.mem_map.1 h with ⟨p, hp, rfl⟩
        rfl
    · simp only [if_neg h2] at h
      rcases List.mem_cons.1 h with rfl | h
      · rfl
      · rcases List.mem_singleton.1 h with rfl
        rfl
  · rw [if_neg h1] at h
    rcases List.mem_singleton.1 h with rfl
    rfl

theorem closeChunks_content {cc : List Str} {name : Str} {c : Chunk}
    (h : c ∈ closeChunks cc name) : c.content.Sublist cc := by
  have hheader : (headerBodySplit false cc).1.Sublist cc := by
    conv_rhs => rw [← headerBodySplit_append false cc]
    exact List.sublist_append_left _ _
  have hbody : (headerBodySplit false cc).2.Sublist cc := by
    conv_rhs => rw [← headerBodySplit_append false cc]
    exact List.sublist_append_right _ _
  unfold closeChunks at h
  by_cases h1 : estimate_tokens (joinLines cc) > max_input_tokens
  · rw [if_pos h1] at h
    by_cases h2 : estimate_tokens (joinLines (headerBodySplit false cc).2) > max_input_tokens
    · simp only [if_pos h2] at h
      rcases List.mem_cons.1 h with rfl | h
      · exact hheader
      · rcases List.mem_map.1 h with ⟨p, hp, rfl⟩
        have hp2 : p.2 ∈ packBody (headerBodySplit false cc).2 [] 0 :=
          List.get?_mem (List.mem_enum_iff_get?.1 hp)
        have hp3 : p.2.Sublist (packBody (headerBodySplit false cc).2 [] 0).flatten :=
          List.sublist_flatten_of_mem hp2
        rw [packBody_flatten] at hp3
        simpa using hp3.trans hbody
    · simp only [if_neg h2] at h
      rcases List.mem_cons.1 h with rfl | h
      · exact hheader
      · rcases List.mem_singleton.1 h with rfl
        exact hbody
  · rw [if_neg h1] at h
    rcases List.mem_singleton.1 h with rfl
    exact List.Sublist.refl cc

theorem nameInv_step {L : List Str} {s : EState} {line : Str}
    (hline : line ∈ L) (hs : nameInv L s) : nameInv L (extractStep s line) := by
  obtain ⟨hname, hcc, hchunks⟩ := hs
  by_cases hopen : opensProc line = true
  · have hmem : ownerName line ∈ openNamesOf L :=
      List.mem_filterMap.2 ⟨line, hline, by rw [if_pos hopen]⟩
    by_cases hflush : s.in_procedure = true ∧ s.current_chunk ≠ []
    · rw [extractStep_open_flush hopen hflush.1 hflush.2]
      refine ⟨fun _ => hmem, by simp, ?_⟩
      intro c hc
      rcases List.mem_append.1 hc with hc | hc
      · exact hchunks c hc
      · rcases List.mem_singleton.1 hc with rfl
        exact hname hflush.1
    · rw [extractStep_open_clean hopen hflush]
      exact ⟨fun _ => hmem, by simp, hchunks⟩
  · have hopen2 : opensProc line = false := by
      cases h : opensProc line with
      | true => exact absurd h hopen
      | false => rfl
    by_cases hin : s.in_procedure = true
    · by_cases hgo : pyLower (pyStrip line) = "go".data
      · rw [extractStep_close hopen2 hin hgo]
        refine ⟨by simp, fun _ => rfl, ?_⟩
        intro c hc
        rcases List.mem_append.1 hc with hc | hc
        · exact hchunks c hc
        · rw [closeChunks_name hc]
          exact hname hin
      · rw [extractStep_collect hopen2 hin hgo]
        exact ⟨hname, by simp [hin], hchunks⟩
    · have hin2 : s.in_procedure = false := by
        cases h : s.in_procedure with
        | true => exact absurd h hin
        | false => rfl
      rw [extractStep_skip hopen2 hin2]
      exact ⟨hname, hcc, hchunks⟩

theorem nameInv_fold {L : List Str} :
    ∀ ls : List Str, (∀ l ∈ ls, l ∈ L) → ∀ s : EState, nameInv L s →
      nameInv L (ls.foldl extractStep s) := by
  intro ls
  induction ls with
  | nil => exact fun _ s hs => hs
  | cons l t ih =>
      intro hsub s hs
      exact ih (fun x hx => hsub x (List.mem_cons_of_mem l hx)) _
        (nameInv_step (hsub l (List.mem_cons_self l t)) hs)

theorem finishChunks_name {L : List Str} {fin : EState} (hfin : nameInv L fin)
    {c : Chunk} (h : c ∈ finishChunks fin) : c.proc_name ∈ openNamesOf L := by
  obtain ⟨hname, hcc, hchunks⟩ := hfin
  have h2 := List.mem_of_mem_filter h
  by_cases hne : fin.current_chunk ≠ []
  · rw [if_pos hne] at h2
    rcases List.mem_append.1 h2 with h3 | h3
    · exact hchunks c h3
    · rcases List.mem_singleton.1 h3 with rfl
      refine hname ?_
      cases hh : fin.in_procedure with
      | true => rfl
      | false => exact absurd (hcc hh) hne
  · rw [if_neg hne] at h2
    exact hchunks c h2

/-- Every emitted chunk's owner name is the `ownerName` of some
scope-opening line of the input. -/
theorem split_chunks_name {sql : Str} {c : Chunk}
    (h : c ∈ split_sql_into_chunks sql) : c.proc_name ∈ openNames sql := by
  unfold split_sql_into_chunks at h
  by_cases hempty : sql = []
  · rw [if_pos hempty] at h
    simp at h
  · rw [if_neg hempty] at h
    have hinv : nameInv (pySplit ['\n'] sql)
        ((pySplit ['\n'] sql).foldl extractStep ⟨[], [], false, []⟩) :=
      nameInv_fold (pySplit ['\n'] sql) (fun _ hl => hl) _ ⟨by simp, fun _ => rfl, by simp⟩
    exact finishChunks_name hinv h

theorem scopeInv_step {s : EState} {t : Bool × List Str} {line : Str}
    (h : scopeInv s t) : scopeInv (extractStep s line) (scopeStep t line) := by
  obtain ⟨hflag, hcc, hchunks⟩ := h
  have hlift : ∀ u : List Str, u.Sublist t.2 → u.Sublist (t.2 ++ [line]) :=
    fun u hu => hu.trans (List.sublist_append_left t.2 [line])
  by_cases hopen : opensProc line = true
  · have hscope : scopeStep t line = (true, t.2 ++ [line]) := by
      simp [scopeStep, hopen, opensProc_ne_go hopen]
    by_cases hflush : s.in_procedure = true ∧ s.current_chunk ≠ []
    · rw [extractStep_open_flush hopen hflush.1 hflush.2, hscope]
      refine ⟨rfl, List.sublist_append_right t.2 [line], ?_⟩
      intro c hc
      rcases List.mem_append.1 hc with hc | hc
      · exact hlift _ (hchunks c hc)
      · rcases List.mem_singleton.1 hc with rfl
        exact hlift _ hcc
    · rw [extractStep_open_clean hopen hflush, hscope]
      exact ⟨rfl, hcc.append (List.Sublist.refl [line]),
        fun c hc => hlift _ (hchunks c hc)⟩
  · have hopen2 : opensProc line = false := by
      cases h : opensProc line with
      | true => exact absurd h hopen
      | false => rfl
    by_cases hin : s.in_procedure = true
    · have ht1 : t.1 = true := hflag ▸ hin
      by_cases hgo : pyLower (pyStrip line) = "go".data
      · have hscope : scopeStep t line = (false, t.2 ++ [line]) := by
          simp [scopeStep, hopen2, ht1, hgo]
        rw [extractStep_close hopen2 hin hgo, hscope]
        refine ⟨rfl, List.nil_sublist _, ?_⟩
        intro c hc
        rcases List.mem_append.1 hc with hc | hc
        · exact hlift _ (hchunks c hc)
        · exact (closeChunks_content hc).trans (hcc.append (List.Sublist.refl [line]))
      · have hscope : scopeStep t line = (true, t.2 ++ [line]) := by
          simp [scopeStep, hopen2, ht1, hgo]
        rw [extractStep_collect hopen2 hin hgo, hscope]
        exact ⟨hin, hcc.append (List.Sublist.refl [line]),
          fun c hc => hlift _ (hchunks c hc)⟩
    · have hin2 : s.in_procedure = false := by
        cases h : s.in_procedure with
        | true => exact absurd h hin
        | false => rfl
      have ht1 : t.1 = false := hflag ▸ hin2
      have hscope : scopeStep t line = (false, t.2) := by
        simp [scopeStep, hopen2, ht1]
      rw [extractStep_skip hopen2 hin2, hscope]
      exact ⟨hin2, hcc, hchunks⟩

theorem scopeInv_fold :
    ∀ (ls : List Str) (s : EState) (t : Bool × List Str), scopeInv s t →
      scopeInv (ls.foldl extractStep s) (ls.foldl scopeStep t) := by
  intro ls
  induction ls with
  | nil => exact fun s t h => h
  | cons l ls2 ih => exact fun s t h => ih _ _ (scopeInv_step h)

theorem finishChunks_content {fin : EState} {t : Bool × List Str}
    (hfin : scopeInv fin t) {c : Chunk} (h : c ∈ finishChunks fin) :
    c.content.Sublist t.2 := by
  obtain ⟨hflag, hcc, hchunks⟩ := hfin
  have h2 := List.mem_of_mem_filter h
  by_cases hne : fin.current_chunk ≠ []
  · rw [if_pos hne] at h2
    rcases List.mem_append.1 h2 with h3 | h3
    · exact hchunks c h3
    · rcases List.mem_singleton.1 h3 with rfl
      exact hcc
  · rw [if_neg hne] at h2
    exact hchunks c h2

/-- Every emitted chunk's content is an in-order selection of the
in-scope lines of the input. -/
theorem split_chunks_content {sql : Str} {c : Chunk}
    (h : c ∈ split_sql_into_chunks sql) : c.content.Sublist (inScopeLines sql) := by
  unfold split_sql_into_chunks at h
  by_cases hempty : sql = []
  · rw [if_pos hempty] at h
    simp at h
  · rw [if_neg hempty] at h
    have hinv := scopeInv_fold (pySplit ['\n'] sql) ⟨[], [], false, []⟩ (false, [])
      ⟨rfl, List.nil_sublist _, by simp⟩
    exact finishChunks_content hinv h

end SQLExtractor

theorem flatten_filter_ne_nil {α : Type} [DecidableEq α] :
    ∀ l : List (List α),
      (l.filter (fun x => decide (x ≠ []))).flatten = l.flatten := by
  intro l
  induction l with
  | nil => rfl
  | cons a t ih =>
      rw [List.filter_cons]
      by_cases h : a = []
      · rw [if_neg (by simp [h]), ih, List.flatten_cons, h, List.nil_append]
      · rw [if_pos (by simp [h]), List.flatten_cons, List.flatten_cons, ih]

/-
Claim C1.
-/

/-- C1 counterexample: on `"a go b"` with the default budget, the
concatenated unit contents are `"ab"`, while the input with the
separator occurrences removed is `"a  b"` - the whitespace around the
separator is lost, so rejoining does NOT reproduce every non-separator
character. -/
theorem claim_C1_counterexample :
    (SQLConverter.split_sql_content "a go b".data 8000).flatten
      ≠ (pySplit SQLConverter.goTok "a go b".data).flatten := by
  decide

/-- C1 (amended): when every trimmed separator-split segment fits the
budget, concatenating the emitted units reproduces the concatenation of
the TRIMMED segments - i.e. besides the separator tokens, the
whitespace adjacent to each cut (and at the text's ends) is also
dropped; nothing else is lost or duplicated.  (For oversized segments
the recursive path additionally re-inserts marker text, see C8.) -/
theorem claim_C1 (sql : Str) (maxc : Nat)
    (h : ∀ st ∈ SQLConverter.goStatements sql, st.length ≤ maxc) :
    (SQLConverter.split_sql_content sql maxc).flatten
      = ((pySplit SQLConverter.goTok sql).map pyStrip).flatten := by
  rw [SQLConverter.split_sql_content_small h]
  exact flatten_filter_ne_nil _

theorem claim_C1_witness :
    (∀ st ∈ SQLConverter.goStatements "a go b".data, st.length ≤ 8000)
    ∧ (SQLConverter.split_sql_content "a go b".data 8000).flatten
        = ((pySplit SQLConverter.goTok "a go b".data).map pyStrip).flatten :=
  ⟨by decide, claim_C1 "a go b".data 8000 (by decide)⟩

/-
Claim C2.
-/

/-- C2: for a procedure chunked into one header unit and two body units
whose per-unit extractions yield `in_params = [a, b]`, then descriptions
`"x"` and `"y"`, the claim says the returned list contains the record
with `in_params = [a, b]` and `description = "x\ny"`.  The code merges
exactly that record - but only into the internal `partial_results`:
`extract_from_chunk` returns `None` for every body part with
`chunk_index > 0`, including the last, so the guard in
`process_sql_file` never appends it and the returned list is empty. -/
theorem claim_C2 :
    SQLExtractor.process_sql_file headerTwoBodyChunks headerTwoBodyOracle = []
    ∧ SQLExtractor.processChunksAux headerTwoBodyOracle headerTwoBodyChunks 0 [] []
        = ([], [mergedRecordXY]) :=
  ⟨rfl, rfl⟩

/-
Claim C3.
-/

/-- C3: the claim says a unit's permanent failure never prevents the
remaining sibling units from being processed, in both paths.  In the
extraction path this fails: with units `[A, B, C]` where `B` exhausts
its retries, `process_sql_file` returns `[]` - `A`'s success is
discarded and `C` is never attempted (the same batch without `B`
returns both records).  In the translation path the failure is indeed
contained: a failing middle unit leaves its siblings' results in the
assembled output. -/
theorem claim_C3 :
    SQLExtractor.process_sql_file [fullChunkA, fullChunkB, fullChunkC] failingMiddleOracle
        = []
    ∧ SQLExtractor.process_sql_file [fullChunkA, fullChunkC] allOkOracle
        = [recordA, recordC]
    ∧ SQLConverter.convert_sql_parallel [.ok "A".data, .failure, .ok "B".data]
        = some "A\n\nGO\n\nB".data :=
  ⟨rfl, rfl, rfl⟩

/-
Claim C4.
-/

/-- C4: the claim says a terminal error (context-length-exceeded,
malformed/empty response, explicit refusal) makes the retry governor
fail permanently on the FIRST such failure, with no further attempts.
The code retries all three: a refusal or an empty response raises a
`ValueError` inside the `try`, lands in the generic `except Exception`
retry handler, and a second attempt can succeed (2 attempts consumed);
a context-length `BadRequestError` is caught by the earlier
`except openai.APIError` clause (its dedicated handler is shadowed) and
is retried until all 3 attempts are spent. -/
theorem claim_C4 :
    SQLExtractor.extract_from_chunk fullChunkD refusalThenOkOracle []
        = (.ok (some recordD), [], 2)
    ∧ SQLExtractor.extract_from_chunk fullChunkD emptyThenOkOracle []
        = (.ok (some recordD), [], 2)
    ∧ SQLExtractor.extract_from_chunk fullChunkD ctxLenOracle []
        = (.error .apiErrorAfterRetries, [], 3) :=
  ⟨rfl, rfl, rfl⟩

/-
Claim C5.
-/

/-- C5 counterexample: the claim describes splitting at separator
tokens standing alone on a line, case-insensitively.  The code splits
at every occurrence of the literal lowercase substring `'go'`: on
`"SELECT 1\nGO\nSELECT 2"` the standalone-line reading yields two
statements, the code yields one (uppercase `GO` never matches). -/
theorem claim_C5_counterexample :
    SQLConverter.split_sql_content "SELECT 1\nGO\nSELECT 2".data 8000
        = ["SELECT 1\nGO\nSELECT 2".data]
    ∧ specSplitStandalone "SELECT 1\nGO\nSELECT 2".data
        = ["SELECT 1".data, "SELECT 2".data]
    ∧ SQLConverter.split_sql_content "SELECT 1\nGO\nSELECT 2".data 8000
        ≠ specSplitStandalone "SELECT 1\nGO\nSELECT 2".data := by
  refine ⟨by decide, by decide, ?_⟩
  decide

/-- C5 (amended): the chunker splits at every occurrence of the literal
lowercase substring `"go"`, anywhere in the text (case-sensitive, not
line-anchored), trims each candidate and discards empties; when every
trimmed candidate fits the budget those candidates are exactly the
emitted units. -/
theorem claim_C5 (sql : Str) (maxc : Nat)
    (h : ∀ st ∈ SQLConverter.goStatements sql, st.length ≤ maxc) :
    SQLConverter.split_sql_content sql maxc
      = ((pySplit SQLConverter.goTok sql).map pyStrip).filter
          (fun st => decide (st ≠ [])) :=
  SQLConverter.split_sql_content_small h

/-- C5 witness: the claim's own scenario still holds under the amended
reading - `"SELECT 1 go SELECT 2 go SELECT 3"` yields exactly the three
statement units, in order. -/
theorem claim_C5_witness :
    (∀ st ∈ SQLConverter.goStatements "SELECT 1 go SELECT 2 go SELECT 3".data,
      st.length ≤ 8000)
    ∧ SQLConverter.split_sql_content "SELECT 1 go SELECT 2 go SELECT 3".data 8000
        = ["SELECT 1".data, "SELECT 2".data, "SELECT 3".data] :=
  ⟨by decide, (claim_C5 "SELECT 1 go SELECT 2 go SELECT 3".data 8000 (by decide)).trans
    (by decide)⟩

/-
Claim C6.
-/

/-- C6 counterexample: on the opening line
`"create procedure foo @x int"`, the token immediately following the
marker is `"foo"`, but the emitted unit carries `"int"` - the code
takes `line.split()[-1]`, the LAST token of the line. -/
theorem claim_C6_counterexample :
    (SQLExtractor.split_sql_into_chunks "create procedure foo @x int\ngo".data).map
        (fun c => c.proc_name) = ["int".data]
    ∧ (pyWsSplit "create procedure foo @x int".data)[2]? = some "foo".data
    ∧ ("int".data : Str) ≠ "foo".data := by
  refine ⟨by decide, by decide, ?_⟩
  decide

/-- C6 (amended): every unit emitted for a procedure scope carries as
its owner identifier the LAST whitespace-delimited token of some
scope-opening line of the input (which coincides with the token
following the marker only when the procedure name ends the line). -/
theorem claim_C6 (sql : Str) (c : SQLExtractor.Chunk)
    (h : c ∈ SQLExtractor.split_sql_into_chunks sql) :
    c.proc_name ∈ SQLExtractor.openNames sql :=
  SQLExtractor.split_chunks_name h

theorem claim_C6_witness :
    fooProcChunk ∈ SQLExtractor.split_sql_into_chunks "create procedure foo @x int\ngo".data
    ∧ fooProcChunk.proc_name
        ∈ SQLExtractor.openNames "create procedure foo @x int\ngo".data :=
  ⟨by decide,
    claim_C6 "create procedure foo @x int\ngo".data fooProcChunk (by decide)⟩

/-
Claim C7.
-/

/-- C7 counterexample: an empty-string success is filtered out by the
truthiness test `[r for r in results if r]`; with the single result
`some ""` the code's assembler returns `none` although one unit
succeeded, where the claim's reading returns the empty-but-successful
`some ""`. -/
theorem claim_C7_counterexample :
    SQLConverter.joinConverted [some ([] : Str)] = none
    ∧ specJoinSuccesses [some ([] : Str)] = some []
    ∧ SQLConverter.joinConverted [some ([] : Str)]
        ≠ specJoinSuccesses [some ([] : Str)] := by
  refine ⟨by decide, by decide, ?_⟩
  decide

/-- C7 (amended): the assembler joins the successful NON-EMPTY results
in original order with the `"\n\nGO\n\n"` separator, and returns `none`
exactly when every unit either failed or returned an empty string -
empty-string successes are conflated with failures by the truthiness
filter. -/
theorem claim_C7 (results : List (Option Str)) :
    (SQLConverter.joinConverted results = none
      ↔ ∀ r ∈ results, r = none ∨ r = some [])
    ∧ ∀ s, SQLConverter.joinConverted results = some s →
        s = joinWith SQLConverter.gatherSep
          ((results.filterMap id).filter (fun t => decide (t ≠ []))) := by
  refine ⟨SQLConverter.joinConverted_eq_none_iff results, ?_⟩
  intro s hs
  rw [show SQLConverter.joinConverted results
      = (if results.filterMap SQLConverter.pyTruthy = [] then none
        else some (joinWith SQLConverter.gatherSep
          (results.filterMap SQLConverter.pyTruthy))) from rfl] at hs
  by_cases h : results.filterMap SQLConverter.pyTruthy = []
  · rw [if_pos h] at hs
    exact absurd hs (by simp)
  · rw [if_neg h] at hs
    rw [← Option.some_inj.1 hs, SQLConverter.filterMap_pyTruthy]

theorem claim_C7_witness :
    SQLConverter.joinConverted [some "a".data, none, some "b".data]
        = some "a\n\nGO\n\nb".data
    ∧ "a\n\nGO\n\nb".data = joinWith SQLConverter.gatherSep
        (([some "a".data, none, some "b".data].filterMap id).filter
          (fun t => decide (t ≠ []))) :=
  ⟨rfl, (claim_C7 [some "a".data, none, some "b".data]).2 "a\n\nGO\n\nb".data rfl⟩

/-
Claim C8.
-/

/-- C8 counterexample: with budget 10, the input
`"0123456789ab create procZZbeginWW"` makes the chunker emit
`"create procZZbeginWW"` (among others) - an oversized unit that still
contains the `begin` (and `create proc`) split markers, so it is
neither within budget nor an unsplittable piece with all markers
exhausted. -/
theorem claim_C8_counterexample :
    ¬ ∀ c ∈ SQLConverter.split_sql_content "0123456789ab create procZZbeginWW".data 10,
        (c.length ≤ 10 ∨ SQLConverter.noMarkers c) := by
  decide

/-- C8 (amended): every emitted unit either fits the budget, or is a
re-prefixed procedure piece `"create proc" ++ p` whose own content `p`
fits the budget (the unit may exceed it by the prefix length), or is a
re-prefixed piece (`"create proc" ++ p` or `"begin" ++ p`) whose
content `p` contains no further split marker; oversized units are
emitted as-is, never dropped or truncated. -/
theorem claim_C8 (sql : Str) (maxc : Nat) (c : Str)
    (h : c ∈ SQLConverter.split_sql_content sql maxc) :
    SQLConverter.unitEscape maxc c :=
  SQLConverter.chunk_escape h

theorem claim_C8_witness :
    ("create procZZbeginWW".data : Str)
        ∈ SQLConverter.split_sql_content "0123456789ab create procZZbeginWW".data 10
    ∧ SQLConverter.unitEscape 10 "create procZZbeginWW".data :=
  ⟨by decide,
    claim_C8 "0123456789ab create procZZbeginWW".data 10 "create procZZbeginWW".data
      (by decide)⟩

/-
Claim C9.
-/

/-- C9: the extraction token estimate is `len(text) // 3`, and it is
monotone in the text length - a longer text never yields a smaller
estimate. -/
theorem claim_C9 :
    (∀ s : Str, SQLExtractor.estimate_tokens s = s.length / 3)
    ∧ ∀ s t : Str, s.length ≤ t.length →
        SQLExtractor.estimate_tokens s ≤ SQLExtractor.estimate_tokens t :=
  ⟨fun _ => rfl, fun _ _ h => Nat.div_le_div_right h⟩

theorem claim_C9_witness :
    SQLExtractor.estimate_tokens "abcd".data = ("abcd".data : Str).length / 3
    ∧ ("ab".data : Str).length ≤ ("abcdef".data : Str).length
    ∧ SQLExtractor.estimate_tokens "ab".data
        ≤ SQLExtractor.estimate_tokens "abcdef".data :=
  ⟨claim_C9.1 "abcd".data, by decide, claim_C9.2 "ab".data "abcdef".data (by decide)⟩

/-
Claim C10.
-/

/-- C10: every unit emitted by the extraction chunker draws its content
exclusively, and in order, from lines inside an open procedure scope -
lines before the first procedure marker, and lines between a closing
standalone separator and the next marker, appear in no emitted unit. -/
theorem claim_C10 (sql : Str) (c : SQLExtractor.Chunk)
    (h : c ∈ SQLExtractor.split_sql_into_chunks sql) :
    c.content.Sublist (SQLExtractor.inScopeLines sql) :=
  SQLExtractor.split_chunks_content h

theorem claim_C10_witness :
    scopedFullChunk
      ∈ SQLExtractor.split_sql_into_chunks "junk\ncreate proc p\nbody\ngo\ntail".data
    ∧ scopedFullChunk.content.Sublist
        (SQLExtractor.inScopeLines "junk\ncreate proc p\nbody\ngo\ntail".data) :=
  ⟨by decide,
    claim_C10 "junk\ncreate proc p\nbody\ngo\ntail".data scopedFullChunk (by decide)⟩
